import Mathlib

/-!
Shallow embedding of `src/backend/NLP/analysis.py` (repository twitterNLP).

The repository is a single module with three functions:
`vader_sentiment_analysis`, `huggingface_sentiment_analysis` and
`comments_sentiment_analysis`.  The two external collaborators (the VADER
lexicon analyzer and the HuggingFace pipeline) are modelled abstractly:
the lexicon analyzer as an arbitrary function `compound : String → ℚ`
giving the compound score of a comment, and the pipeline as a `Classifier`
record bundling its tokenizer (`tokenize`, `convert_tokens_to_string`)
and its classification call (`classify`, returning a label and a
confidence).  Sentiment scores, which are Python floats, are modelled as
rationals.  Python runtime errors (ZeroDivisionError from `sum(l)/len(l)`
on an empty list, IndexError from an out-of-range positional lookup) are
modelled with `Except PyError`.
-/

namespace TwitterNLP

/-- The external HuggingFace sentiment pipeline, abstracted: a tokenizer
(`tokenize` and its inverse `convert_tokens_to_string`) and a classifier
call returning a `(label, confidence)` pair, as used by
`huggingface_sentiment_analysis`. -/
structure Classifier where
  tokenize : String → List String
  convert_tokens_to_string : List String → String
  classify : String → String × ℚ

/-- Embedding of `vader_sentiment_analysis` (analysis.py lines 7-31):
for each comment in order, append the compound score produced by the
external analyzer.  `compound` models `analyzer.polarity_scores(c)["compound"]`. -/
def vader_sentiment_analysis (compound : String → ℚ) (comments : List String) : List ℚ :=
  comments.map compound

/-- The conversion performed by the list comprehension at analysis.py
lines 72-79: keep the confidence for label "POSITIVE", negate it otherwise. -/
def signed_score (sentiment : String × ℚ) : ℚ :=
  if sentiment.1 = "POSITIVE" then sentiment.2 else -sentiment.2

/-- Embedding of `huggingface_sentiment_analysis` (analysis.py lines 35-81):
the first loop (lines 54-69) collects a raw classifier result for every
comment whose tokenization has fewer than 510 tokens (longer comments are
skipped, producing nothing); the comprehension (lines 72-79) then converts
each raw result to a signed score. -/
def huggingface_sentiment_analysis (cl : Classifier) (comments : List String) : List ℚ :=
  let raw : List (String × ℚ) := comments.filterMap (fun comment =>
    let tokenized_comment := cl.tokenize comment
    if tokenized_comment.length < 510 then
      some (cl.classify (cl.convert_tokens_to_string (tokenized_comment.take 510)))
    else
      none)
  raw.map signed_score

/-- The signed score `huggingface_sentiment_analysis` assigns to a single
comment: `none` when the comment is skipped because its tokenization has
at least 510 tokens, otherwise the signed classifier score of the
detokenized (truncated) text. -/
def ml_comment_score (cl : Classifier) (comment : String) : Option ℚ :=
  let tokenized_comment := cl.tokenize comment
  if tokenized_comment.length < 510 then
    some (signed_score (cl.classify (cl.convert_tokens_to_string (tokenized_comment.take 510))))
  else
    none

/-- The per-group record built by `comments_sentiment_analysis`
(analysis.py lines 128-134 and 155-161). -/
structure GroupSummary where
  avg_sentiment : ℚ
  max_sentiment_comment : String
  max_sentiment : ℚ
  min_sentiment_comment : String
  min_sentiment : ℚ
deriving DecidableEq, Repr

/-- The Python runtime errors the aggregation can raise:
`ZeroDivisionError` from `sum(scores)/len(scores)` on an empty score list,
`IndexError` from `value[i]` with `i` out of range. -/
inductive PyError where
  | zeroDivisionError
  | indexError
deriving DecidableEq, Repr

/-- The body of the per-group loop of `comments_sentiment_analysis`
(analysis.py lines 114-134 / 142-161) after the score list has been
computed: average, extremal scores via Python `max`/`min` (modelled as
folds over the nonempty list), and recovery of the extremal comments by
positional lookup `value[scores.index(extremal)]`.  An empty score list
makes `sum(scores)/len(scores)` raise `ZeroDivisionError`; an
out-of-range positional lookup would raise `IndexError`. -/
def summarize_group (value : List String) : List ℚ → Except PyError GroupSummary
  | [] => .error .zeroDivisionError
  | s :: ss =>
    let sentiment_scores := s :: ss
    let avg_sentiment := sentiment_scores.sum / (sentiment_scores.length : ℚ)
    let max_sentiment_score := ss.foldl max s
    match value[sentiment_scores.indexOf max_sentiment_score]? with
    | none => .error .indexError
    | some max_sentiment_comment =>
      let min_sentiment_score := ss.foldl min s
      match value[sentiment_scores.indexOf min_sentiment_score]? with
      | none => .error .indexError
      | some min_sentiment_comment =>
        .ok ⟨avg_sentiment, max_sentiment_comment, max_sentiment_score,
             min_sentiment_comment, min_sentiment_score⟩

/-- The per-method loop of `comments_sentiment_analysis` (analysis.py
lines 108-134 and 136-161): iterate over the input mapping in order,
skip groups whose comment list is empty (`if not value: continue`),
summarize every other group, and stop at the first raised error. -/
def run_groups (score_fn : List String → List ℚ) :
    List (String × List String) → Except PyError (List (String × GroupSummary))
  | [] => .ok []
  | (key, value) :: rest =>
    if value = [] then run_groups score_fn rest
    else
      match summarize_group value (score_fn value) with
      | .error e => .error e
      | .ok summary =>
        match run_groups score_fn rest with
        | .error e => .error e
        | .ok results => .ok ((key, summary) :: results)

/-- The final reordering of `comments_sentiment_analysis` (analysis.py
line 164): `dict(sorted(results.items(), key=lambda x: x[0]))`, a stable
sort of the result entries by ascending group key. -/
def sort_results (results : List (String × GroupSummary)) : List (String × GroupSummary) :=
  results.mergeSort (fun a b => a.1 ≤ b.1)

/-- Embedding of `comments_sentiment_analysis` (analysis.py lines 84-166).
The input mapping is a Python dict, modelled as an association list in
iteration order; `compound` and `cl` are the two external scorers.  The
method dispatch is by string equality: "vader" and "ml" select a scorer,
any other value leaves `results` empty.  The collected results are sorted
by group key before being returned. -/
def comments_sentiment_analysis (cl : Classifier) (compound : String → ℚ)
    (comments : List (String × List String)) (method : String) :
    Except PyError (List (String × GroupSummary)) :=
  match
    (if method = "vader" then run_groups (vader_sentiment_analysis compound) comments
     else if method = "ml" then run_groups (huggingface_sentiment_analysis cl) comments
     else .ok []) with
  | .error e => .error e
  | .ok results => .ok (sort_results results)

/-! ### Concrete external collaborators used in closed evaluations -/

/-- A concrete classifier: "A" tokenizes to 510 tokens (and is therefore
skipped), every other comment tokenizes to one token; every
classification returns "POSITIVE" with confidence 1/2. -/
def cexClassifier : Classifier where
  tokenize := fun c => if c = "A" then List.replicate 510 "t" else [c]
  convert_tokens_to_string := fun _ => ""
  classify := fun _ => ("POSITIVE", 1/2)

/-- A concrete classifier under which every comment tokenizes to 510
tokens, so the classifier scorer skips every comment. -/
def oversizedClassifier : Classifier where
  tokenize := fun _ => List.replicate 510 "t"
  convert_tokens_to_string := fun _ => ""
  classify := fun _ => ("POSITIVE", 0)

/-- A concrete classifier with a trivial tokenizer (no tokens) that
classifies everything as "POSITIVE" with confidence 1/2. -/
def posClassifier : Classifier where
  tokenize := fun _ => []
  convert_tokens_to_string := fun _ => ""
  classify := fun _ => ("POSITIVE", 1/2)

/-- A concrete lexicon scorer: score 1 for the comment "g", score 0
otherwise. -/
def gCompound : String → ℚ := fun c => if c = "g" then 1 else 0

/-- A concrete lexicon scorer assigning score 0 to every comment. -/
def zeroCompound : String → ℚ := fun _ => 0

/-! ### Helper lemmas about Python `max`, `min` and `list.index` -/

theorem foldl_max_mem (s : ℚ) (ss : List ℚ) : ss.foldl max s ∈ s :: ss := by
  induction ss generalizing s with
  | nil => simp
  | cons t ts ih =>
    rw [List.foldl_cons]
    rcases List.mem_cons.1 (ih (max s t)) with h2 | h2
    · rcases max_choice s t with h1 | h1 <;> rw [h1] at h2 ⊢ <;> simp [h2]
    · simp [h2]

theorem foldl_min_mem (s : ℚ) (ss : List ℚ) : ss.foldl min s ∈ s :: ss := by
  induction ss generalizing s with
  | nil => simp
  | cons t ts ih =>
    rw [List.foldl_cons]
    rcases List.mem_cons.1 (ih (min s t)) with h2 | h2
    · rcases min_choice s t with h1 | h1 <;> rw [h1] at h2 ⊢ <;> simp [h2]
    · simp [h2]

theorem self_le_foldl_max (s : ℚ) (ss : List ℚ) : s ≤ ss.foldl max s := by
  induction ss generalizing s with
  | nil => exact le_refl s
  | cons t ts ih => exact le_trans (le_max_left s t) (ih (max s t))

theorem foldl_min_le_self (s : ℚ) (ss : List ℚ) : ss.foldl min s ≤ s := by
  induction ss generalizing s with
  | nil => exact le_refl s
  | cons t ts ih => exact le_trans (ih (min s t)) (min_le_left s t)

theorem le_foldl_max (s : ℚ) (ss : List ℚ) : ∀ x ∈ s :: ss, x ≤ ss.foldl max s := by
  induction ss generalizing s with
  | nil =>
    intro x hx
    rw [List.mem_singleton] at hx
    simp [hx]
  | cons t ts ih =>
    intro x hx
    rw [List.foldl_cons]
    rcases List.mem_cons.1 hx with rfl | hx
    · exact le_trans (le_max_left x t) (self_le_foldl_max (max x t) ts)
    · rcases List.mem_cons.1 hx with rfl | hx
      · exact le_trans (le_max_right s x) (self_le_foldl_max (max s x) ts)
      · exact ih (max s t) x (List.mem_cons_of_mem _ hx)

theorem foldl_min_le (s : ℚ) (ss : List ℚ) : ∀ x ∈ s :: ss, ss.foldl min s ≤ x := by
  induction ss generalizing s with
  | nil =>
    intro x hx
    rw [List.mem_singleton] at hx
    simp [hx]
  | cons t ts ih =>
    intro x hx
    rw [List.foldl_cons]
    rcases List.mem_cons.1 hx with rfl | hx
    · exact le_trans (foldl_min_le_self (min x t) ts) (min_le_left x t)
    · rcases List.mem_cons.1 hx with rfl | hx
      · exact le_trans (foldl_min_le_self (min s x) ts) (min_le_right s x)
      · exact ih (min s t) x (List.mem_cons_of_mem _ hx)

theorem getElem_ne_of_lt_indexOf (l : List ℚ) (a : ℚ) (j : ℕ) (hj : j < l.indexOf a)
    (hl : j < l.length) : l[j] ≠ a := by
  have hj' : j < l.findIdx (fun x => x == a) := hj
  have h := List.not_of_lt_findIdx hj'
  simpa using h

/-! ### Characterization of `summarize_group` -/

theorem summarize_group_ok (value : List String) (s : ℚ) (ss : List ℚ) (summ : GroupSummary)
    (h : summarize_group value (s :: ss) = .ok summ) :
    summ.avg_sentiment = (s :: ss).sum / ((s :: ss).length : ℚ) ∧
    summ.max_sentiment = ss.foldl max s ∧
    value[(s :: ss).indexOf (ss.foldl max s)]? = some summ.max_sentiment_comment ∧
    summ.min_sentiment = ss.foldl min s ∧
    value[(s :: ss).indexOf (ss.foldl min s)]? = some summ.min_sentiment_comment := by
  dsimp only [summarize_group] at h
  split at h
  · exact absurd h (by simp)
  · split at h
    · exact absurd h (by simp)
    · rename_i x1 cmax hmax x2 cmin hmin
      rw [Except.ok.injEq] at h
      subst h
      exact ⟨rfl, rfl, hmax, rfl, hmin⟩

theorem summarize_group_ne_indexError (value : List String) (scores : List ℚ)
    (hlen : scores.length ≤ value.length) :
    summarize_group value scores ≠ .error .indexError := by
  match scores with
  | [] => simp [summarize_group]
  | s :: ss =>
    have hmax : (s :: ss).indexOf (ss.foldl max s) < value.length :=
      lt_of_lt_of_le (List.indexOf_lt_length.2 (foldl_max_mem s ss)) hlen
    have hmin : (s :: ss).indexOf (ss.foldl min s) < value.length :=
      lt_of_lt_of_le (List.indexOf_lt_length.2 (foldl_min_mem s ss)) hlen
    dsimp only [summarize_group]
    rw [List.getElem?_eq_getElem hmax, List.getElem?_eq_getElem hmin]
    simp

/-! ### Score-list shape lemmas for the two scorers -/

theorem vader_length (compound : String → ℚ) (comments : List String) :
    (vader_sentiment_analysis compound comments).length = comments.length :=
  List.length_map _ _

theorem huggingface_eq_filterMap (cl : Classifier) (comments : List String) :
    huggingface_sentiment_analysis cl comments = comments.filterMap (ml_comment_score cl) := by
  simp only [huggingface_sentiment_analysis, List.map_filterMap]
  apply List.filterMap_congr
  intro c _
  by_cases h : (cl.tokenize c).length < 510 <;> simp [ml_comment_score, h]

theorem huggingface_length_le (cl : Classifier) (comments : List String) :
    (huggingface_sentiment_analysis cl comments).length ≤ comments.length := by
  rw [huggingface_eq_filterMap]
  exact List.length_filterMap_le _ _

/-! ### Lemmas about the per-method loop `run_groups` -/

theorem run_groups_ok_mem (score_fn : List String → List ℚ)
    (l : List (String × List String)) (results : List (String × GroupSummary))
    (h : run_groups score_fn l = .ok results) (key : String) (summ : GroupSummary)
    (hmem : (key, summ) ∈ results) :
    ∃ value, (key, value) ∈ l ∧ value ≠ [] ∧
      summarize_group value (score_fn value) = .ok summ := by
  induction l generalizing results with
  | nil =>
    dsimp only [run_groups] at h
    rw [Except.ok.injEq] at h
    subst h
    simp at hmem
  | cons kv rest ih =>
    obtain ⟨k, v⟩ := kv
    dsimp only [run_groups] at h
    split at h
    · obtain ⟨value, hv1, hv2, hv3⟩ := ih results h hmem
      exact ⟨value, List.mem_cons_of_mem _ hv1, hv2, hv3⟩
    · rename_i hvne
      split at h
      · exact absurd h (by simp)
      · rename_i summary hsumm
        split at h
        · exact absurd h (by simp)
        · rename_i results2 hrest
          rw [Except.ok.injEq] at h
          subst h
          rcases List.mem_cons.1 hmem with heq | hmem2
          · rw [Prod.mk.injEq] at heq
            obtain ⟨rfl, rfl⟩ := heq
            exact ⟨v, List.mem_cons_self _ _, hvne, hsumm⟩
          · obtain ⟨value, hv1, hv2, hv3⟩ := ih results2 hrest hmem2
            exact ⟨value, List.mem_cons_of_mem _ hv1, hv2, hv3⟩

theorem run_groups_ne_indexError (score_fn : List String → List ℚ)
    (hlen : ∀ value, (score_fn value).length ≤ value.length)
    (l : List (String × List String)) :
    run_groups score_fn l ≠ .error .indexError := by
  induction l with
  | nil => simp [run_groups]
  | cons kv rest ih =>
    obtain ⟨k, v⟩ := kv
    dsimp only [run_groups]
    split
    · exact ih
    · split
      · rename_i e heq
        intro hcontra
        injection hcontra with h1
        subst h1
        exact summarize_group_ne_indexError v (score_fn v) (hlen v) heq
      · split
        · rename_i e heq
          intro hcontra
          injection hcontra with h1
          subst h1
          exact ih heq
        · simp

theorem run_groups_ne_ok_of_mem_error (score_fn : List String → List ℚ)
    (l : List (String × List String)) (key : String) (value : List String)
    (hmem : (key, value) ∈ l) (hne : value ≠ []) (e : PyError)
    (herr : summarize_group value (score_fn value) = .error e) :
    ∀ results, run_groups score_fn l ≠ .ok results := by
  induction l with
  | nil => simp at hmem
  | cons kv rest ih =>
    obtain ⟨k, v⟩ := kv
    intro results
    dsimp only [run_groups]
    rcases List.mem_cons.1 hmem with heq | hmem2
    · rw [Prod.mk.injEq] at heq
      obtain ⟨rfl, rfl⟩ := heq
      split
      · rename_i hv
        exact absurd hv hne
      · rw [herr]
        simp
    · split
      · exact ih hmem2 results
      · split
        · simp
        · split
          · simp
          · rename_i results2 hrest
            exact fun _ => absurd hrest (ih hmem2 results2)

theorem run_groups_error_of_mem_error (score_fn : List String → List ℚ)
    (hlen : ∀ value, (score_fn value).length ≤ value.length)
    (l : List (String × List String)) (key : String) (value : List String)
    (hmem : (key, value) ∈ l) (hne : value ≠ []) (e : PyError)
    (herr : summarize_group value (score_fn value) = .error e) :
    run_groups score_fn l = .error .zeroDivisionError := by
  cases hrun : run_groups score_fn l with
  | ok results =>
    exact absurd hrun (run_groups_ne_ok_of_mem_error score_fn l key value hmem hne e herr results)
  | error e2 =>
    cases e2 with
    | zeroDivisionError => rfl
    | indexError => exact absurd hrun (run_groups_ne_indexError score_fn hlen l)

/-- When the score list is exactly the input comment list mapped through a
per-comment scoring function `g` (positional correspondence), the extremal
comments reported by `summarize_group` are members of the group whose `g`
score equals the reported extremal value. -/
theorem summarize_group_map_ok (g : String → ℚ) (value : List String) (summ : GroupSummary)
    (h : summarize_group value (value.map g) = .ok summ) :
    (summ.max_sentiment_comment ∈ value ∧ g summ.max_sentiment_comment = summ.max_sentiment) ∧
    (summ.min_sentiment_comment ∈ value ∧ g summ.min_sentiment_comment = summ.min_sentiment) := by
  cases hs : value.map g with
  | nil =>
    rw [hs] at h
    exact absurd h (by simp [summarize_group])
  | cons s ss =>
    rw [hs] at h
    obtain ⟨havg, hmax, hmaxc, hmin, hminc⟩ := summarize_group_ok value s ss summ h
    constructor
    · have hMmem : ss.foldl max s ∈ value.map g := by
        rw [hs]
        exact foldl_max_mem s ss
      have hidxv : (value.map g).indexOf (ss.foldl max s) < value.length := by
        have h1 := List.indexOf_lt_length.2 hMmem
        rwa [List.length_map] at h1
      have hidxm : (value.map g).indexOf (ss.foldl max s) < (value.map g).length :=
        List.indexOf_lt_length.2 hMmem
      rw [← hs] at hmaxc
      rw [List.getElem?_eq_getElem hidxv, Option.some.injEq] at hmaxc
      have hkey : (value.map g).get ⟨(value.map g).indexOf (ss.foldl max s), hidxm⟩ =
          ss.foldl max s := List.indexOf_get hidxm
      rw [List.get_map] at hkey
      rw [hmax, ← hmaxc]
      exact ⟨List.getElem_mem _, by simpa [List.get_eq_getElem] using hkey⟩
    · have hMmem : ss.foldl min s ∈ value.map g := by
        rw [hs]
        exact foldl_min_mem s ss
      have hidxv : (value.map g).indexOf (ss.foldl min s) < value.length := by
        have h1 := List.indexOf_lt_length.2 hMmem
        rwa [List.length_map] at h1
      have hidxm : (value.map g).indexOf (ss.foldl min s) < (value.map g).length :=
        List.indexOf_lt_length.2 hMmem
      rw [← hs] at hminc
      rw [List.getElem?_eq_getElem hidxv, Option.some.injEq] at hminc
      have hkey : (value.map g).get ⟨(value.map g).indexOf (ss.foldl min s), hidxm⟩ =
          ss.foldl min s := List.indexOf_get hidxm
      rw [List.get_map] at hkey
      rw [hmin, ← hminc]
      exact ⟨List.getElem_mem _, by simpa [List.get_eq_getElem] using hkey⟩

/-- On success, the extremal comments reported by `summarize_group` are
recovered positionally: the reported comment sits in the input list at the
first index whose score equals the reported extremal value. -/
theorem summarize_group_ok_first_index (value : List String) (scores : List ℚ)
    (summ : GroupSummary) (h : summarize_group value scores = .ok summ) :
    (∃ (i : ℕ) (hi : i < scores.length) (hiv : i < value.length),
       scores.get ⟨i, hi⟩ = summ.max_sentiment ∧
       (∀ (j : ℕ) (hj : j < scores.length), j < i → scores.get ⟨j, hj⟩ ≠ summ.max_sentiment) ∧
       summ.max_sentiment_comment = value.get ⟨i, hiv⟩) ∧
    (∃ (i : ℕ) (hi : i < scores.length) (hiv : i < value.length),
       scores.get ⟨i, hi⟩ = summ.min_sentiment ∧
       (∀ (j : ℕ) (hj : j < scores.length), j < i → scores.get ⟨j, hj⟩ ≠ summ.min_sentiment) ∧
       summ.min_sentiment_comment = value.get ⟨i, hiv⟩) := by
  cases scores with
  | nil => exact absurd h (by simp [summarize_group])
  | cons s ss =>
    obtain ⟨havg, hmax, hmaxc, hmin, hminc⟩ := summarize_group_ok value s ss summ h
    constructor
    · have hmem : ss.foldl max s ∈ s :: ss := foldl_max_mem s ss
      have hi : (s :: ss).indexOf (ss.foldl max s) < (s :: ss).length :=
        List.indexOf_lt_length.2 hmem
      have hiv : (s :: ss).indexOf (ss.foldl max s) < value.length := by
        rcases List.getElem?_eq_some.1 hmaxc with ⟨hlt, hval⟩
        exact hlt
      refine ⟨(s :: ss).indexOf (ss.foldl max s), hi, hiv, ?_, ?_, ?_⟩
      · rw [hmax]
        exact List.indexOf_get hi
      · intro j hj hji hcontra
        rw [hmax] at hcontra
        have hne := getElem_ne_of_lt_indexOf (s :: ss) (ss.foldl max s) j hji hj
        rw [List.get_eq_getElem] at hcontra
        exact hne hcontra
      · rcases List.getElem?_eq_some.1 hmaxc with ⟨hlt, hval⟩
        rw [← hval, List.get_eq_getElem]
    · have hmem : ss.foldl min s ∈ s :: ss := foldl_min_mem s ss
      have hi : (s :: ss).indexOf (ss.foldl min s) < (s :: ss).length :=
        List.indexOf_lt_length.2 hmem
      have hiv : (s :: ss).indexOf (ss.foldl min s) < value.length := by
        rcases List.getElem?_eq_some.1 hminc with ⟨hlt, hval⟩
        exact hlt
      refine ⟨(s :: ss).indexOf (ss.foldl min s), hi, hiv, ?_, ?_, ?_⟩
      · rw [hmin]
        exact List.indexOf_get hi
      · intro j hj hji hcontra
        rw [hmin] at hcontra
        have hne := getElem_ne_of_lt_indexOf (s :: ss) (ss.foldl min s) j hji hj
        rw [List.get_eq_getElem] at hcontra
        exact hne hcontra
      · rcases List.getElem?_eq_some.1 hminc with ⟨hlt, hval⟩
        rw [← hval, List.get_eq_getElem]

/-! ### Lemmas about the final sort -/

theorem sort_results_perm (results : List (String × GroupSummary)) :
    (sort_results results).Perm results :=
  List.mergeSort_perm _ _

theorem sort_results_sorted (results : List (String × GroupSummary)) :
    (sort_results results).Pairwise (fun a b => a.1 ≤ b.1) := by
  have htrans : ∀ a b c : String × GroupSummary,
      (decide (a.1 ≤ b.1)) = true → (decide (b.1 ≤ c.1)) = true →
      (decide (a.1 ≤ c.1)) = true := by
    intro a b c hab hbc
    rw [decide_eq_true_eq] at *
    exact le_trans hab hbc
  have htotal : ∀ a b : String × GroupSummary,
      ((decide (a.1 ≤ b.1)) || (decide (b.1 ≤ a.1))) = true := by
    intro a b
    simpa using le_total a.1 b.1
  unfold sort_results
  exact (List.sorted_mergeSort htrans htotal results).imp (fun hab => by simpa using hab)

theorem sort_results_nil : sort_results [] = [] := by
  simp [sort_results]

theorem sort_results_singleton (x : String × GroupSummary) : sort_results [x] = [x] := by
  simp [sort_results]

/-- The arithmetic mean of a nonempty score list lies between the fold
computing Python `min` and the fold computing Python `max`. -/
theorem avg_between (s : ℚ) (ss : List ℚ) :
    ss.foldl min s ≤ (s :: ss).sum / ((s :: ss).length : ℚ) ∧
    (s :: ss).sum / ((s :: ss).length : ℚ) ≤ ss.foldl max s := by
  have hn : (0 : ℚ) < ((s :: ss).length : ℚ) := by
    rw [List.length_cons]
    push_cast
    positivity
  have hsum_le : (s :: ss).sum ≤ ((s :: ss).length : ℚ) * (ss.foldl max s) := by
    have h := List.sum_le_card_nsmul (s :: ss) (ss.foldl max s) (le_foldl_max s ss)
    rwa [nsmul_eq_mul] at h
  have hle_sum : ((s :: ss).length : ℚ) * (ss.foldl min s) ≤ (s :: ss).sum := by
    have h := List.card_nsmul_le_sum (s :: ss) (ss.foldl min s) (foldl_min_le s ss)
    rwa [nsmul_eq_mul] at h
  constructor
  · rw [le_div_iff₀ hn]
    linarith
  · rw [div_le_iff₀ hn]
    linarith

/-- When no comment of the input tokenizes to 510 or more tokens, the
classifier scorer skips nothing and is an exact per-comment map, in
one-to-one positional correspondence with its input. -/
theorem huggingface_eq_map_of_short (cl : Classifier) (comments : List String)
    (hshort : ∀ c ∈ comments, (cl.tokenize c).length < 510) :
    huggingface_sentiment_analysis cl comments =
      comments.map (fun c =>
        signed_score (cl.classify (cl.convert_tokens_to_string ((cl.tokenize c).take 510)))) := by
  rw [huggingface_eq_filterMap]
  induction comments with
  | nil => rfl
  | cons a l ih =>
    rw [List.filterMap_cons, List.map_cons]
    have ha : ml_comment_score cl a =
        some (signed_score (cl.classify (cl.convert_tokens_to_string ((cl.tokenize a).take 510)))) := by
      simp [ml_comment_score, hshort a (List.mem_cons_self a l)]
    rw [ha]
    rw [ih (fun c hc => hshort c (List.mem_cons_of_mem a hc))]

/-- A `filterMap` keeps every element of the input exactly when the
function returns `some` everywhere on the input. -/
theorem length_filterMap_eq_iff {α β : Type} (f : α → Option β) (l : List α) :
    (l.filterMap f).length = l.length ↔ ∀ a ∈ l, f a ≠ none := by
  induction l with
  | nil => simp
  | cons a l ih =>
    rw [List.filterMap_cons]
    cases hfa : f a with
    | none =>
      simp only [List.length_cons]
      constructor
      · intro h
        have hle := List.length_filterMap_le f l
        omega
      · intro h
        exact absurd hfa (h a (List.mem_cons_self a l))
    | some b =>
      simp only [List.length_cons]
      constructor
      · intro h c hc
        rcases List.mem_cons.1 hc with rfl | hc2
        · simp [hfa]
        · exact (ih.1 (by omega)) c hc2
      · intro h
        have h2 := ih.2 (fun c hc => h c (List.mem_cons_of_mem a hc))
        omega

/-- Keys with nonempty values: in a key-unique association list, two
entries with the same key coincide. -/
theorem value_eq_of_nodup_keys {β : Type} (l : List (String × β))
    (hnodup : (l.map Prod.fst).Nodup) (k : String) (v1 v2 : β)
    (h1 : (k, v1) ∈ l) (h2 : (k, v2) ∈ l) : v1 = v2 := by
  induction l with
  | nil => simp at h1
  | cons a rest ih =>
    rw [List.map_cons, List.nodup_cons] at hnodup
    rcases List.mem_cons.1 h1 with e1 | m1 <;> rcases List.mem_cons.1 h2 with e2 | m2
    · rw [← e1] at e2
      exact (Prod.mk.injEq .. ▸ e2).2.symm
    · subst e1
      exact absurd (List.mem_map_of_mem Prod.fst m2) (by simpa using hnodup.1)
    · subst e2
      exact absurd (List.mem_map_of_mem Prod.fst m1) (by simpa using hnodup.1)
    · exact ih hnodup.2 m1 m2

/-! ### Inversion lemmas for the aggregator -/

/-- Every entry of a successful aggregation result comes from an input
group: its key is an input key with nonempty comment list and its summary
was produced by `summarize_group` on the scorer selected by `method`. -/
theorem comments_sentiment_analysis_ok_mem (cl : Classifier) (compound : String → ℚ)
    (comments : List (String × List String)) (method : String)
    (res : List (String × GroupSummary))
    (hres : comments_sentiment_analysis cl compound comments method = .ok res)
    (key : String) (summ : GroupSummary) (hmem : (key, summ) ∈ res) :
    ∃ score_fn : List String → List ℚ,
      ((method = "vader" ∧ score_fn = vader_sentiment_analysis compound) ∨
       (method = "ml" ∧ score_fn = huggingface_sentiment_analysis cl)) ∧
      ∃ value, (key, value) ∈ comments ∧ value ≠ [] ∧
        summarize_group value (score_fn value) = .ok summ := by
  unfold comments_sentiment_analysis at hres
  by_cases hv : method = "vader"
  · rw [if_pos hv] at hres
    split at hres
    · exact absurd hres (by simp)
    · rename_i results hrun
      rw [Except.ok.injEq] at hres
      subst hres
      have hmem2 : (key, summ) ∈ results := (sort_results_perm results).mem_iff.1 hmem
      obtain ⟨value, hm1, hm2, hm3⟩ := run_groups_ok_mem _ comments results hrun key summ hmem2
      exact ⟨_, Or.inl ⟨hv, rfl⟩, value, hm1, hm2, hm3⟩
  · rw [if_neg hv] at hres
    by_cases hm : method = "ml"
    · rw [if_pos hm] at hres
      split at hres
      · exact absurd hres (by simp)
      · rename_i results hrun
        rw [Except.ok.injEq] at hres
        subst hres
        have hmem2 : (key, summ) ∈ results := (sort_results_perm results).mem_iff.1 hmem
        obtain ⟨value, hm1, hm2, hm3⟩ := run_groups_ok_mem _ comments results hrun key summ hmem2
        exact ⟨_, Or.inr ⟨hm, rfl⟩, value, hm1, hm2, hm3⟩
    · rw [if_neg hm] at hres
      dsimp only at hres
      rw [Except.ok.injEq] at hres
      subst hres
      rw [sort_results_nil] at hmem
      simp at hmem

/-- Every successful aggregation result is the sorted form of some
collected result list. -/
theorem comments_sentiment_analysis_ok_sorted (cl : Classifier) (compound : String → ℚ)
    (comments : List (String × List String)) (method : String)
    (res : List (String × GroupSummary))
    (hres : comments_sentiment_analysis cl compound comments method = .ok res) :
    ∃ results, res = sort_results results := by
  unfold comments_sentiment_analysis at hres
  by_cases hv : method = "vader"
  · rw [if_pos hv] at hres
    split at hres
    · exact absurd hres (by simp)
    · rename_i results hrun
      rw [Except.ok.injEq] at hres
      exact ⟨results, hres.symm⟩
  · rw [if_neg hv] at hres
    by_cases hm : method = "ml"
    · rw [if_pos hm] at hres
      split at hres
      · exact absurd hres (by simp)
      · rename_i results hrun
        rw [Except.ok.injEq] at hres
        exact ⟨results, hres.symm⟩
    · rw [if_neg hm] at hres
      dsimp only at hres
      rw [Except.ok.injEq] at hres
      exact ⟨[], hres.symm⟩

/-- The aggregation never raises `IndexError`: the positional lookups are
always in range because both scorers return at most one score per input
comment. -/
theorem comments_sentiment_analysis_ne_indexError (cl : Classifier) (compound : String → ℚ)
    (comments : List (String × List String)) (method : String) :
    comments_sentiment_analysis cl compound comments method ≠ .error .indexError := by
  unfold comments_sentiment_analysis
  by_cases hv : method = "vader"
  · rw [if_pos hv]
    split
    · rename_i e heq
      intro hcontra
      injection hcontra with h1
      subst h1
      exact run_groups_ne_indexError _
        (fun value => le_of_eq (vader_length compound value)) comments heq
    · simp
  · rw [if_neg hv]
    by_cases hm : method = "ml"
    · rw [if_pos hm]
      split
      · rename_i e heq
        intro hcontra
        injection hcontra with h1
        subst h1
        exact run_groups_ne_indexError _ (huggingface_length_le cl) comments heq
      · simp
    · rw [if_neg hm]
      simp

set_option maxRecDepth 8000

/-- Closed evaluation shared by several witnesses: the aggregation of the
single group "2023-01" ↦ ["g"] under the lexicon scorer `gCompound`. -/
theorem eval_g_singleton :
    comments_sentiment_analysis posClassifier gCompound [("2023-01", ["g"])] "vader" =
      .ok [("2023-01", ⟨1, "g", 1, "g", 1⟩)] := by
  have h1 : vader_sentiment_analysis gCompound ["g"] = [1] := by
    simp [vader_sentiment_analysis, gCompound]
  have h2 : summarize_group ["g"] [(1 : ℚ)] = .ok ⟨1, "g", 1, "g", 1⟩ := by
    simp [summarize_group, List.indexOf_cons]
  have h3 : run_groups (vader_sentiment_analysis gCompound) [("2023-01", ["g"])] =
      .ok [("2023-01", ⟨1, "g", 1, "g", 1⟩)] := by
    simp [run_groups, h1, h2]
  simp [comments_sentiment_analysis, h3, sort_results_singleton]

/-! ### Claims -/

/-- C1 counterexample: with the classifier scorer, a skipped oversized
comment misaligns the positional lookup.  On the group
"2023-01" ↦ ["A", "B"] with method "ml" — where "A" tokenizes to 510
tokens and is skipped, and "B" scores 1/2 — the reported extremal comment
is "A" with reported extremal value 1/2, yet "A" has no sentiment score
at all under the classifier scorer (it was skipped), so the score of the
reported comment does not equal the reported value. -/
theorem reported_comment_score_mismatch_cex :
    comments_sentiment_analysis cexClassifier zeroCompound [("2023-01", ["A", "B"])] "ml" =
      .ok [("2023-01", ⟨1/2, "A", 1/2, "A", 1/2⟩)] ∧
    (⟨1/2, "A", 1/2, "A", 1/2⟩ : GroupSummary).max_sentiment_comment = "A" ∧
    (⟨1/2, "A", 1/2, "A", 1/2⟩ : GroupSummary).max_sentiment = 1/2 ∧
    ml_comment_score cexClassifier "A" = none := by
  refine ⟨?_, rfl, rfl, ?_⟩
  · have h1 : run_groups (huggingface_sentiment_analysis cexClassifier)
        [("2023-01", ["A", "B"])] = .ok [("2023-01", ⟨1/2, "A", 1/2, "A", 1/2⟩)] := by
      simp [run_groups, summarize_group, huggingface_sentiment_analysis, cexClassifier,
        signed_score, List.indexOf_cons]
    simp [comments_sentiment_analysis, h1, sort_results_singleton]
  · simp [ml_comment_score, cexClassifier]

/-- C1 (amended): for every group in the output, the score of the
reported extremal comment equals the reported extremal value — with
method "vader" unconditionally, and with method "ml" provided no comment
of the input tokenizes to 510 or more tokens (so no comment is skipped
and the score list stays positionally aligned).  The unamended claim
fails for "ml" when a comment is skipped (see the counterexample). -/
theorem reported_comment_score_eq (cl : Classifier) (compound : String → ℚ)
    (comments : List (String × List String)) (method : String)
    (res : List (String × GroupSummary))
    (hres : comments_sentiment_analysis cl compound comments method = .ok res)
    (key : String) (summ : GroupSummary) (hmem : (key, summ) ∈ res) :
    (method = "vader" →
      compound summ.max_sentiment_comment = summ.max_sentiment ∧
      compound summ.min_sentiment_comment = summ.min_sentiment) ∧
    (method = "ml" →
      (∀ kv ∈ comments, ∀ c ∈ kv.2, (cl.tokenize c).length < 510) →
      ml_comment_score cl summ.max_sentiment_comment = some summ.max_sentiment ∧
      ml_comment_score cl summ.min_sentiment_comment = some summ.min_sentiment) := by
  obtain ⟨score_fn, hdisj, value, hvmem, hvne, hsumm⟩ :=
    comments_sentiment_analysis_ok_mem cl compound comments method res hres key summ hmem
  constructor
  · intro hv
    rcases hdisj with ⟨_, rfl⟩ | ⟨hm, _⟩
    · have h := summarize_group_map_ok compound value summ hsumm
      exact ⟨h.1.2, h.2.2⟩
    · rw [hv] at hm
      exact absurd hm (by decide)
  · intro hm hshort
    rcases hdisj with ⟨hv, _⟩ | ⟨_, rfl⟩
    · rw [hm] at hv
      exact absurd hv (by decide)
    · have hsv : ∀ c ∈ value, (cl.tokenize c).length < 510 :=
        fun c hc => hshort (key, value) hvmem c hc
      rw [huggingface_eq_map_of_short cl value hsv] at hsumm
      have h := summarize_group_map_ok _ value summ hsumm
      constructor
      · have hms : ml_comment_score cl summ.max_sentiment_comment =
            some (signed_score (cl.classify (cl.convert_tokens_to_string
              ((cl.tokenize summ.max_sentiment_comment).take 510)))) := by
          simp [ml_comment_score, hsv _ h.1.1]
        rw [hms, h.1.2]
      · have hms : ml_comment_score cl summ.min_sentiment_comment =
            some (signed_score (cl.classify (cl.convert_tokens_to_string
              ((cl.tokenize summ.min_sentiment_comment).take 510)))) := by
          simp [ml_comment_score, hsv _ h.2.1]
        rw [hms, h.2.2]

/-- Witness for C1 (amended): the "vader" branch at the concrete group
"2023-01" ↦ ["g"] with the scorer `gCompound`. -/
theorem reported_comment_score_eq_witness :
    comments_sentiment_analysis posClassifier gCompound [("2023-01", ["g"])] "vader" =
      .ok [("2023-01", ⟨1, "g", 1, "g", 1⟩)] ∧
    gCompound (⟨1, "g", 1, "g", 1⟩ : GroupSummary).max_sentiment_comment =
      (⟨1, "g", 1, "g", 1⟩ : GroupSummary).max_sentiment :=
  ⟨eval_g_singleton,
   ((reported_comment_score_eq posClassifier gCompound [("2023-01", ["g"])] "vader"
     [("2023-01", ⟨1, "g", 1, "g", 1⟩)] eval_g_singleton "2023-01"
     ⟨1, "g", 1, "g", 1⟩ (List.mem_singleton.2 rfl)).1 rfl).1⟩

/-- C2: with method "ml", a present nonempty group whose every comment
tokenizes to at least 510 tokens leaves that group's score list empty, so
the average computation divides by zero and the whole aggregation raises
ZeroDivisionError; and this is the only error path — the aggregation
never raises IndexError, for any classifier, scorer, input and method. -/
theorem ml_oversized_group_zero_division (cl : Classifier) (compound : String → ℚ)
    (comments : List (String × List String)) (key : String) (value : List String)
    (hmem : (key, value) ∈ comments) (hne : value ≠ [])
    (hbig : ∀ c ∈ value, 510 ≤ (cl.tokenize c).length) :
    comments_sentiment_analysis cl compound comments "ml" = .error .zeroDivisionError ∧
    ∀ (cl2 : Classifier) (compound2 : String → ℚ)
      (comments2 : List (String × List String)) (method2 : String),
      comments_sentiment_analysis cl2 compound2 comments2 method2 ≠ .error .indexError := by
  constructor
  · have hempty : huggingface_sentiment_analysis cl value = [] := by
      rw [huggingface_eq_filterMap, List.filterMap_eq_nil_iff]
      intro c hc
      simp [ml_comment_score, not_lt.2 (hbig c hc)]
    have herr : summarize_group value (huggingface_sentiment_analysis cl value) =
        .error .zeroDivisionError := by
      rw [hempty]
      rfl
    have hrun := run_groups_error_of_mem_error (huggingface_sentiment_analysis cl)
      (huggingface_length_le cl) comments key value hmem hne _ herr
    simp [comments_sentiment_analysis, hrun]
  · exact comments_sentiment_analysis_ne_indexError

/-- Witness for C2: a sole comment "A" tokenizing to exactly 510 tokens
in its group, with method "ml". -/
theorem ml_oversized_group_zero_division_witness :
    comments_sentiment_analysis oversizedClassifier zeroCompound [("2023-01", ["A"])] "ml" =
      .error .zeroDivisionError :=
  (ml_oversized_group_zero_division oversizedClassifier zeroCompound [("2023-01", ["A"])]
    "2023-01" ["A"] (List.mem_singleton.2 rfl) (by simp)
    (fun c _ => by simp [oversizedClassifier])).1

/-- C3: For every input list of comments, the lexicon scorer
`vader_sentiment_analysis` returns a list of scores of exactly the same
length as the input, in the same order — the i-th score is the compound
score of the i-th comment — and, under the external lexicon's contract
that every compound score lies in [-1, 1], each returned score lies in
[-1, 1].  No comment is truncated or skipped regardless of its length. -/
theorem vader_scores_parallel (compound : String → ℚ)
    (hbound : ∀ c, -1 ≤ compound c ∧ compound c ≤ 1) (comments : List String) :
    (vader_sentiment_analysis compound comments).length = comments.length ∧
    (∀ (i : ℕ) (hi : i < comments.length)
        (hi2 : i < (vader_sentiment_analysis compound comments).length),
      (vader_sentiment_analysis compound comments).get ⟨i, hi2⟩ =
        compound (comments.get ⟨i, hi⟩)) ∧
    (∀ q ∈ vader_sentiment_analysis compound comments, -1 ≤ q ∧ q ≤ 1) := by
  refine ⟨List.length_map _ _, ?_, ?_⟩
  · intro i hi hi2
    exact List.get_map compound
  · intro q hq
    rcases List.mem_map.1 hq with ⟨c, hc, rfl⟩
    exact hbound c

/-- Witness for C3: the concrete scorer `zeroCompound` on the list
["a", "b"]. -/
theorem vader_scores_parallel_witness :
    (∀ c, -1 ≤ zeroCompound c ∧ zeroCompound c ≤ 1) ∧
    ((vader_sentiment_analysis zeroCompound ["a", "b"]).length =
        (["a", "b"] : List String).length ∧
     (∀ (i : ℕ) (hi : i < (["a", "b"] : List String).length)
         (hi2 : i < (vader_sentiment_analysis zeroCompound ["a", "b"]).length),
       (vader_sentiment_analysis zeroCompound ["a", "b"]).get ⟨i, hi2⟩ =
         zeroCompound ((["a", "b"] : List String).get ⟨i, hi⟩)) ∧
     (∀ q ∈ vader_sentiment_analysis zeroCompound ["a", "b"], -1 ≤ q ∧ q ≤ 1)) :=
  have hb : ∀ c, -1 ≤ zeroCompound c ∧ zeroCompound c ≤ 1 :=
    fun c => ⟨by norm_num [zeroCompound], by norm_num [zeroCompound]⟩
  ⟨hb, vader_scores_parallel zeroCompound hb ["a", "b"]⟩

/-- C4: The classifier scorer produces no score at all for a comment
tokenizing to at least 510 tokens (no placeholder) and exactly one score
for every other comment; the output is the order-preserving compaction of
these per-comment results, so its length is at most the input length,
with equality exactly when no comment tokenizes to 510 or more tokens. -/
theorem huggingface_skips_oversized (cl : Classifier) (comments : List String) :
    (∀ c ∈ comments, 510 ≤ (cl.tokenize c).length → ml_comment_score cl c = none) ∧
    (∀ c ∈ comments, (cl.tokenize c).length < 510 →
      ml_comment_score cl c = some (signed_score
        (cl.classify (cl.convert_tokens_to_string ((cl.tokenize c).take 510))))) ∧
    huggingface_sentiment_analysis cl comments = comments.filterMap (ml_comment_score cl) ∧
    (huggingface_sentiment_analysis cl comments).length ≤ comments.length ∧
    ((huggingface_sentiment_analysis cl comments).length = comments.length ↔
      ∀ c ∈ comments, (cl.tokenize c).length < 510) := by
  refine ⟨?_, ?_, huggingface_eq_filterMap cl comments, huggingface_length_le cl comments, ?_⟩
  · intro c hc hlong
    simp [ml_comment_score, not_lt.2 hlong]
  · intro c hc hshort
    simp [ml_comment_score, hshort]
  · rw [huggingface_eq_filterMap, length_filterMap_eq_iff]
    constructor
    · intro h c hc
      have h2 := h c hc
      by_contra hlong
      exact h2 (by simp [ml_comment_score, hlong])
    · intro h c hc
      simp [ml_comment_score, h c hc]

/-- C5: In `huggingface_sentiment_analysis`, a classifier result with
label "POSITIVE" and confidence conf contributes the signed score +conf,
and label "NEGATIVE" contributes -conf; with conf in [0, 1] the signed
score lies in [-1, 1]. -/
theorem classifier_signed_conversion (cl : Classifier) (comment label : String) (conf : ℚ)
    (hshort : (cl.tokenize comment).length < 510)
    (hclass : cl.classify (cl.convert_tokens_to_string ((cl.tokenize comment).take 510)) =
      (label, conf))
    (hconf0 : 0 ≤ conf) (hconf1 : conf ≤ 1) :
    (label = "POSITIVE" → huggingface_sentiment_analysis cl [comment] = [conf]) ∧
    (label = "NEGATIVE" → huggingface_sentiment_analysis cl [comment] = [-conf]) ∧
    ∀ q ∈ huggingface_sentiment_analysis cl [comment], -1 ≤ q ∧ q ≤ 1 := by
  have h1 : huggingface_sentiment_analysis cl [comment] = [signed_score (label, conf)] := by
    rw [huggingface_eq_filterMap]
    simp [ml_comment_score, hshort, hclass]
  refine ⟨?_, ?_, ?_⟩
  · intro hl
    rw [h1]
    simp [signed_score, hl]
  · intro hl
    rw [h1]
    subst hl
    simp [signed_score]
  · intro q hq
    rw [h1, List.mem_singleton] at hq
    subst hq
    dsimp [signed_score]
    split
    · exact ⟨by linarith, hconf1⟩
    · constructor <;> linarith

/-- Witness for C5: the concrete classifier `posClassifier` on the
comment "a", which classifies as ("POSITIVE", 1/2). -/
theorem classifier_signed_conversion_witness :
    (posClassifier.tokenize "a").length < 510 ∧
    (("POSITIVE" : String) = "POSITIVE" →
      huggingface_sentiment_analysis posClassifier ["a"] = [1/2]) :=
  ⟨by simp [posClassifier],
   (classifier_signed_conversion posClassifier "a" "POSITIVE" (1/2)
     (by simp [posClassifier]) rfl (by norm_num) (by norm_num)).1⟩

/-- C7: Calling `comments_sentiment_analysis` with a method other than
"vader" or "ml" returns an empty result mapping and raises no error, for
every input mapping. -/
theorem unsupported_method_empty (cl : Classifier) (compound : String → ℚ)
    (comments : List (String × List String)) (method : String)
    (hv : method ≠ "vader") (hm : method ≠ "ml") :
    comments_sentiment_analysis cl compound comments method = .ok [] := by
  unfold comments_sentiment_analysis
  rw [if_neg hv, if_neg hm]
  dsimp only
  rw [sort_results_nil]

/-- Witness for C7: method "unknown" on a nonempty input mapping. -/
theorem unsupported_method_empty_witness :
    comments_sentiment_analysis posClassifier zeroCompound [("2023-01", ["a"])] "unknown" =
      .ok [] :=
  unsupported_method_empty posClassifier zeroCompound [("2023-01", ["a"])] "unknown"
    (by decide) (by decide)

/-- C6: for every input mapping with unique group keys and either
supported (or any) method, a group key whose comment list is empty
produces no entry in a successful result, and a key absent from the input
is absent from the output. -/
theorem empty_group_omitted (cl : Classifier) (compound : String → ℚ)
    (comments : List (String × List String)) (method : String)
    (res : List (String × GroupSummary))
    (hres : comments_sentiment_analysis cl compound comments method = .ok res)
    (hnodup : (comments.map Prod.fst).Nodup) (key : String) :
    ((key, ([] : List String)) ∈ comments → key ∉ res.map Prod.fst) ∧
    (key ∉ comments.map Prod.fst → key ∉ res.map Prod.fst) := by
  have hkey : key ∈ res.map Prod.fst → ∃ value, (key, value) ∈ comments ∧ value ≠ [] := by
    intro hk
    rcases List.mem_map.1 hk with ⟨⟨k2, summ⟩, hmem, hfst⟩
    dsimp at hfst
    subst hfst
    obtain ⟨f, _, value, hv1, hv2, _⟩ :=
      comments_sentiment_analysis_ok_mem cl compound comments method res hres k2 summ hmem
    exact ⟨value, hv1, hv2⟩
  constructor
  · intro hemp hk
    obtain ⟨value, hv1, hv2⟩ := hkey hk
    exact hv2 (value_eq_of_nodup_keys comments hnodup key value [] hv1 hemp)
  · intro habs hk
    obtain ⟨value, hv1, _⟩ := hkey hk
    exact habs (List.mem_map_of_mem Prod.fst hv1)

/-- Witness for C6: the input mapping with the single, empty group
"2023-02" produces an empty result, which in particular has no
"2023-02" key. -/
theorem empty_group_omitted_witness :
    comments_sentiment_analysis posClassifier zeroCompound [("2023-02", [])] "vader" =
      .ok [] ∧
    "2023-02" ∉ (([] : List (String × GroupSummary)).map Prod.fst) := by
  have hres : comments_sentiment_analysis posClassifier zeroCompound
      [("2023-02", [])] "vader" = .ok [] := by
    have h1 : run_groups (vader_sentiment_analysis zeroCompound)
        [("2023-02", ([] : List String))] = .ok [] := by
      simp [run_groups]
    simp [comments_sentiment_analysis, h1, sort_results_nil]
  exact ⟨hres,
    (empty_group_omitted posClassifier zeroCompound [("2023-02", [])] "vader" [] hres
      (by decide) "2023-02").1 (List.mem_singleton.2 rfl)⟩

/-- C8: the keys of every successful result of
`comments_sentiment_analysis` ascend, for every input mapping regardless
of its iteration order.  The order on `String` in this development is
lexicographic on characters (`String.lt_iff_toList_lt`), matching
Python's string comparison used by `sorted`. -/
theorem results_sorted_by_key (cl : Classifier) (compound : String → ℚ)
    (comments : List (String × List String)) (method : String)
    (res : List (String × GroupSummary))
    (hres : comments_sentiment_analysis cl compound comments method = .ok res) :
    (res.map Prod.fst).Pairwise (· ≤ ·) := by
  obtain ⟨results, rfl⟩ :=
    comments_sentiment_analysis_ok_sorted cl compound comments method res hres
  exact List.pairwise_map.2 (sort_results_sorted results)

/-- Witness for C8 at the concrete single-group input. -/
theorem results_sorted_by_key_witness :
    comments_sentiment_analysis posClassifier gCompound [("2023-01", ["g"])] "vader" =
      .ok [("2023-01", ⟨1, "g", 1, "g", 1⟩)] ∧
    (([("2023-01", (⟨1, "g", 1, "g", 1⟩ : GroupSummary))].map Prod.fst).Pairwise
      (· ≤ ·)) :=
  ⟨eval_g_singleton,
   results_sorted_by_key posClassifier gCompound [("2023-01", ["g"])] "vader"
     [("2023-01", ⟨1, "g", 1, "g", 1⟩)] eval_g_singleton⟩

/-- C9: for every group of a successful result, the reported average lies
in the closed interval between the reported minimum and maximum; in
particular the reported minimum is at most the reported maximum. -/
theorem avg_within_extremes (cl : Classifier) (compound : String → ℚ)
    (comments : List (String × List String)) (method : String)
    (res : List (String × GroupSummary))
    (hres : comments_sentiment_analysis cl compound comments method = .ok res)
    (key : String) (summ : GroupSummary) (hmem : (key, summ) ∈ res) :
    summ.min_sentiment ≤ summ.avg_sentiment ∧
    summ.avg_sentiment ≤ summ.max_sentiment ∧
    summ.min_sentiment ≤ summ.max_sentiment := by
  obtain ⟨score_fn, _, value, _, _, hsumm⟩ :=
    comments_sentiment_analysis_ok_mem cl compound comments method res hres key summ hmem
  cases hs : score_fn value with
  | nil =>
    rw [hs] at hsumm
    exact absurd hsumm (by simp [summarize_group])
  | cons s ss =>
    rw [hs] at hsumm
    obtain ⟨havg, hmax, _, hmin, _⟩ := summarize_group_ok value s ss summ hsumm
    have h := avg_between s ss
    rw [havg, hmax, hmin]
    exact ⟨h.1, h.2, le_trans h.1 h.2⟩

/-- Witness for C9 at the concrete single-group input. -/
theorem avg_within_extremes_witness :
    comments_sentiment_analysis posClassifier gCompound [("2023-01", ["g"])] "vader" =
      .ok [("2023-01", ⟨1, "g", 1, "g", 1⟩)] ∧
    ((⟨1, "g", 1, "g", 1⟩ : GroupSummary).min_sentiment ≤
        (⟨1, "g", 1, "g", 1⟩ : GroupSummary).avg_sentiment ∧
      (⟨1, "g", 1, "g", 1⟩ : GroupSummary).avg_sentiment ≤
        (⟨1, "g", 1, "g", 1⟩ : GroupSummary).max_sentiment ∧
      (⟨1, "g", 1, "g", 1⟩ : GroupSummary).min_sentiment ≤
        (⟨1, "g", 1, "g", 1⟩ : GroupSummary).max_sentiment) :=
  ⟨eval_g_singleton,
   avg_within_extremes posClassifier gCompound [("2023-01", ["g"])] "vader"
     [("2023-01", ⟨1, "g", 1, "g", 1⟩)] eval_g_singleton "2023-01"
     ⟨1, "g", 1, "g", 1⟩ (List.mem_singleton.2 rfl)⟩

/-- C10: for every group of a successful result, the reported extremal
comment is the input comment at the first index of the selected scorer's
score list whose score equals the reported extremal value — a positional
lookup of the first matching score, so ties are resolved by first
occurrence. -/
theorem extremal_comment_first_match (cl : Classifier) (compound : String → ℚ)
    (comments : List (String × List String)) (method : String)
    (res : List (String × GroupSummary))
    (hres : comments_sentiment_analysis cl compound comments method = .ok res)
    (key : String) (summ : GroupSummary) (hmem : (key, summ) ∈ res) :
    ∃ score_fn : List String → List ℚ,
      ((method = "vader" ∧ score_fn = vader_sentiment_analysis compound) ∨
       (method = "ml" ∧ score_fn = huggingface_sentiment_analysis cl)) ∧
      ∃ value, (key, value) ∈ comments ∧
        (∃ (i : ℕ) (hi : i < (score_fn value).length) (hiv : i < value.length),
          (score_fn value).get ⟨i, hi⟩ = summ.max_sentiment ∧
          (∀ (j : ℕ) (hj : j < (score_fn value).length), j < i →
            (score_fn value).get ⟨j, hj⟩ ≠ summ.max_sentiment) ∧
          summ.max_sentiment_comment = value.get ⟨i, hiv⟩) ∧
        (∃ (i : ℕ) (hi : i < (score_fn value).length) (hiv : i < value.length),
          (score_fn value).get ⟨i, hi⟩ = summ.min_sentiment ∧
          (∀ (j : ℕ) (hj : j < (score_fn value).length), j < i →
            (score_fn value).get ⟨j, hj⟩ ≠ summ.min_sentiment) ∧
          summ.min_sentiment_comment = value.get ⟨i, hiv⟩) := by
  obtain ⟨score_fn, hdisj, value, hv1, hv2, hsumm⟩ :=
    comments_sentiment_analysis_ok_mem cl compound comments method res hres key summ hmem
  obtain ⟨hmaxpart, hminpart⟩ :=
    summarize_group_ok_first_index value (score_fn value) summ hsumm
  exact ⟨score_fn, hdisj, value, hv1, hmaxpart, hminpart⟩

/-- Witness for C10 at the concrete single-group input. -/
theorem extremal_comment_first_match_witness :
    comments_sentiment_analysis posClassifier gCompound [("2023-01", ["g"])] "vader" =
      .ok [("2023-01", ⟨1, "g", 1, "g", 1⟩)] ∧
    (∃ score_fn : List String → List ℚ,
      (("vader" : String) = "vader" ∧ score_fn = vader_sentiment_analysis gCompound ∨
       ("vader" : String) = "ml" ∧ score_fn = huggingface_sentiment_analysis posClassifier) ∧
      ∃ value, ("2023-01", value) ∈ [("2023-01", ["g"])] ∧
        (∃ (i : ℕ) (hi : i < (score_fn value).length) (hiv : i < value.length),
          (score_fn value).get ⟨i, hi⟩ =
            (⟨1, "g", 1, "g", 1⟩ : GroupSummary).max_sentiment ∧
          (∀ (j : ℕ) (hj : j < (score_fn value).length), j < i →
            (score_fn value).get ⟨j, hj⟩ ≠
              (⟨1, "g", 1, "g", 1⟩ : GroupSummary).max_sentiment) ∧
          (⟨1, "g", 1, "g", 1⟩ : GroupSummary).max_sentiment_comment =
            value.get ⟨i, hiv⟩) ∧
        (∃ (i : ℕ) (hi : i < (score_fn value).length) (hiv : i < value.length),
          (score_fn value).get ⟨i, hi⟩ =
            (⟨1, "g", 1, "g", 1⟩ : GroupSummary).min_sentiment ∧
          (∀ (j : ℕ) (hj : j < (score_fn value).length), j < i →
            (score_fn value).get ⟨j, hj⟩ ≠
              (⟨1, "g", 1, "g", 1⟩ : GroupSummary).min_sentiment) ∧
          (⟨1, "g", 1, "g", 1⟩ : GroupSummary).min_sentiment_comment =
            value.get ⟨i, hiv⟩)) :=
  ⟨eval_g_singleton,
   extremal_comment_first_match posClassifier gCompound [("2023-01", ["g"])] "vader"
     [("2023-01", ⟨1, "g", 1, "g", 1⟩)] eval_g_singleton "2023-01"
     ⟨1, "g", 1, "g", 1⟩ (List.mem_singleton.2 rfl)⟩

end TwitterNLP
